import Mathlib

/-!
Shallow embedding of `react-native-infinite-pager` (`src/index.tsx`).

Numbers are modelled by `ℚ` (JS numbers on the inputs the claims touch are
finite and the arithmetic involved is exact), `Math.round` by `jsRound`
(round half toward +∞), and JS truthiness by explicit functions where the
source relies on it.  A pager id `${orientation}:${nestingDepth}:${random}`
is modelled by a structure whose fields correspond to the components that
`split(":")` extracts; the registry collections are lists of such ids.
-/

namespace InfinitePager

/-- JS `Math.round` on a finite number: round half toward +∞. -/
def jsRound (x : ℚ) : ℤ := ⌊x + 1/2⌋

/-- A JS runtime value as far as truthiness tests in the source go:
either an actual boolean, or a (derived/shared-value) object reference,
which is always truthy. -/
inductive JVal where
  | jbool (b : Bool)
  | jref (name : String)
deriving DecidableEq, Repr

/-- JS truthiness: `false` is falsy, any object reference is truthy. -/
def jsTruthy : JVal → Bool
  | .jbool b => b
  | .jref _ => true

/-- JS `a || b`: returns `a` when truthy, else `b`. -/
def jsOr (a b : JVal) : JVal := if jsTruthy a then a else b

/-- A pager identity `${orientation}:${nestingDepth}:${random}`
(source line 187); `orientation`/`depth` model `split(":")[0]` and
`Number(split(":")[1])`. -/
structure PagerId where
  orientation : String
  depth : ℤ
  uid : ℕ
deriving DecidableEq, Repr

/-- Source `isMinIndex` (line 283): `curIndex <= minIndex`. -/
def isMinIndexVal (curIndex : ℤ) (minIndex : ℚ) : Bool :=
  decide ((curIndex : ℚ) ≤ minIndex)

/-- Source `isMaxIndex` (line 286): `curIndex >= maxIndex`. -/
def isMaxIndexVal (curIndex : ℤ) (maxIndex : ℚ) : Bool :=
  decide ((curIndex : ℚ) ≥ maxIndex)

/-- Source `const isAtEdge = isMinIndex || isMaxIndex` (line 290).
`isMinIndex` and `isMaxIndex` are the derived-value OBJECTS (not their
`.value` booleans), so the `||` is evaluated on two object references. -/
def isAtEdge : JVal := jsOr (.jref "isMinIndex") (.jref "isMaxIndex")

/-- Source `isAtEdgeAnim = useDerivedValue(() => isAtEdge)` (line 291):
its `.value` is whatever `isAtEdge` evaluated to. -/
def isAtEdgeAnimValue : JVal := isAtEdge

/-- State written by the `onBegin` handler. -/
structure BeginState where
  activePagers : List PagerId
  startTranslate : ℚ
  initTouchX : ℚ
  initTouchY : ℚ
deriving DecidableEq, Repr

/-- Handler `panGesture.onBegin` (source lines 314-327): if `!isAtEdgeAnim.value`,
push this pager onto `activePagers`; record start translate and initial
touch coordinates. -/
def onBegin (pid : PagerId) (translateV evtX evtY : ℚ) (st : BeginState) :
    BeginState :=
  let active1 :=
    if !jsTruthy isAtEdgeAnimValue then st.activePagers ++ [pid]
    else st.activePagers
  { activePagers := active1
    startTranslate := translateV
    initTouchX := evtX
    initTouchY := evtY }

/-- Source `isGestureLocked` (lines 298-309): truthiness of
`activePagers.value.length && !isDeepestInOrientation`, where
`isDeepestInOrientation` is: every active pager of this orientation has
depth `≤ nestingDepth`. -/
def isGestureLocked (orientation : String) (nestingDepth : ℤ)
    (active : List PagerId) : Bool :=
  let isDeepestInOrientation :=
    (active.filter (fun v => v.orientation == orientation)).all
      (fun v => decide (v.depth ≤ nestingDepth))
  decide (active.length ≠ 0) && !isDeepestInOrientation

/-- Result of the `onTouchesMove` handler: whether `mgr.fail()` was called
and the resulting `activePagers`. -/
structure MoveResult where
  failed : Bool
  activePagers : List PagerId
deriving DecidableEq, Repr

/-- Handler `panGesture.onTouchesMove` (source lines 328-368).  Computes the
primary-axis translate of the first changed touch, the past-the-end test,
and `shouldFailSelf = (!bouncePct && swipingPastEnd) || isGestureLocked ||
gesturesDisabled`.  On fail, the removal of this pager from `activePagers`
sits INSIDE the `if (debugTag)` block in the source (lines 346-359), so it
only happens when `debugTag` is a non-empty (truthy) string.  Otherwise the
pager ensures it is in `activePagers`. -/
def onTouchesMove (vertical : Bool) (bouncePct : ℚ) (debugTag : String)
    (gesturesDisabled : Bool) (orientation : String) (nestingDepth : ℤ)
    (curIndex : ℤ) (minIndex maxIndex : ℚ) (pid : PagerId)
    (active : List PagerId) (touchX touchY initX initY : ℚ) : MoveResult :=
  let evtVal := if vertical then touchY else touchX
  let initTouch := if vertical then initY else initX
  let evtTranslate := evtVal - initTouch
  let swipingPastEnd :=
    (isMinIndexVal curIndex minIndex && decide (evtTranslate > 0)) ||
    (isMaxIndexVal curIndex maxIndex && decide (evtTranslate < 0))
  let shouldFailSelf :=
    (decide (bouncePct = 0) && swipingPastEnd) ||
    isGestureLocked orientation nestingDepth active ||
    gesturesDisabled
  if shouldFailSelf then
    if debugTag ≠ "" then
      { failed := true, activePagers := active.filter (fun p => p ≠ pid) }
    else
      { failed := true, activePagers := active }
  else
    if pid ∈ active then
      { failed := false, activePagers := active }
    else
      { failed := false, activePagers := active ++ [pid] }

/-- Handler `panGesture.onUpdate` (source lines 369-407): returns the translate
written to the position store, or `none` when the update is suppressed
(arbitration-locked or cross-axis swipe). -/
def onUpdate (vertical : Bool) (orientation : String) (nestingDepth : ℤ)
    (active : List PagerId) (bouncePct pageSizeV startTranslateV : ℚ)
    (initialIndex : ℤ) (minIndex maxIndex : ℚ)
    (translationX translationY : ℚ) : Option ℚ :=
  let evtTranslate := if vertical then translationY else translationX
  let crossAxisTranslate := if vertical then translationX else translationY
  let isSwipingCrossAxis :=
    decide (|crossAxisTranslate| > 10) &&
    decide (|crossAxisTranslate| > |evtTranslate|)
  if isGestureLocked orientation nestingDepth active || isSwipingCrossAxis then
    none
  else
    let rawVal := startTranslateV + evtTranslate
    let page := (initialIndex : ℚ) + -rawVal / pageSizeV
    if page ≥ minIndex ∧ page ≤ maxIndex then
      some rawVal
    else
      let referenceVal := if page < minIndex then minIndex else maxIndex
      let pageOverflowPct := referenceVal - page
      let overflowTrans := pageOverflowPct * pageSizeV
      let maxBounceTrans := bouncePct * pageSizeV
      let bounceTrans := pageOverflowPct * maxBounceTrans
      let clampedVal := rawVal - overflowTrans
      some (clampedVal + bounceTrans)

/-- Result of the `onEnd` handler. -/
structure EndResult where
  isFling : Bool
  targetPage : ℚ
  targetTranslate : ℚ
deriving DecidableEq, Repr

/-- Handler `panGesture.onEnd` (source lines 408-448): fling detection, half-page
velocity nudge, target page selection with clamping, and the spring target
translate. -/
def onEnd (vertical : Bool) (orientation : String) (nestingDepth : ℤ)
    (active : List PagerId) (flingVelocity pageSizeV translateV : ℚ)
    (initialIndex : ℤ) (minIndex maxIndex : ℚ)
    (velocityX velocityY translationX translationY : ℚ) : EndResult :=
  let evtVelocity := if vertical then velocityY else velocityX
  let evtTranslate := if vertical then translationY else translationX
  let crossAxisTranslate := if vertical then translationX else translationY
  let isSwipingCrossAxis := decide (|crossAxisTranslate| > |evtTranslate|)
  let isFling :=
    if isGestureLocked orientation nestingDepth active || isSwipingCrossAxis
    then false
    else decide (|evtVelocity| > flingVelocity)
  let velocityModifier0 : ℚ := if isFling then pageSizeV / 2 else 0
  let velocityModifier :=
    if evtVelocity < 0 then velocityModifier0 * (-1) else velocityModifier0
  let page0 : ℚ :=
    (initialIndex : ℚ) +
      -1 * (jsRound ((translateV + velocityModifier) / pageSizeV) : ℚ)
  let page1 := if page0 < minIndex then minIndex else page0
  let page2 := if page1 > maxIndex then maxIndex else page1
  { isFling := isFling
    targetPage := page2
    targetTranslate := -(page2 - (initialIndex : ℚ)) * pageSizeV }

/-- Handler `panGesture.onFinalize` (source lines 449-464): unconditionally remove
this pager from `activePagers`. -/
def onFinalize (pid : PagerId) (active : List PagerId) : List PagerId :=
  active.filter (fun p => p ≠ pid)

/-- The commit/notify reaction (source lines 262-272), run over a sequence
of observed continuous page positions: the reaction computes
`Math.round(pageAnim.value)` and, whenever it differs from the previously
observed value, emits it to the page-change callback. -/
def runReaction : Option ℤ → List ℚ → List ℤ
  | _, [] => []
  | prev, p :: rest =>
    let cur := jsRound p
    if prev = some cur then runReaction prev rest
    else cur :: runReaction (some cur) rest

/-- Emissions of the commit/notify reaction over a sweep of positions,
starting from an already-observed position `start` (the pager rests at
`round start` before the sweep begins). -/
def sweepEmissions (start : ℚ) (samples : List ℚ) : List ℤ :=
  runReaction (some (jsRound start)) samples

/-- The list of integers `a, a+1, ..., b` (empty when `b < a`). -/
def intSeq (a b : ℤ) : List ℤ :=
  (List.range (b + 1 - a).toNat).map (fun i : ℕ => a + (i : ℤ))

/-- The integers emitted when walking from `r0` (exclusive) to `last`:
upward `r0+1, ..., last` when `r0 ≤ last`, downward `r0-1, ..., last`
otherwise. -/
def walkFrom (r0 last : ℤ) : List ℤ :=
  if r0 ≤ last then intSeq (r0 + 1) last else (intSeq last (r0 - 1)).reverse

/-- State touched by `setPage`: the shared translate value and the
committed index (`curIndex`, mutated only by the commit reaction). -/
structure SetPageState where
  translateV : ℚ
  curIndex : ℤ
deriving DecidableEq, Repr

/-- Source `setPage` (lines 210-229), after the layout promise has
resolved with `layoutPageSize`: `pSize = pageSize.value || layoutPageSize`;
out-of-range indices return before writing `translate`. -/
def setPage (minIndex maxIndex : ℚ) (initialIndex : ℤ)
    (pageSizeV layoutPageSize : ℚ) (index : ℚ) (st : SetPageState) :
    SetPageState :=
  let pSize := if pageSizeV ≠ 0 then pageSizeV else layoutPageSize
  let updatedTranslate := index * pSize * (-1) + (initialIndex : ℚ) * pSize
  if index < minIndex ∨ index > maxIndex then st
  else { st with translateV := updatedTranslate }

/-- Source `pageIndices` (lines 246-249):
`[...Array(pageBuffer*2+1)].map((_, i) => curIndex - (i - pageBuffer))`. -/
def pageIndices (curIndex : ℤ) (pageBuffer : ℕ) : List ℤ :=
  (List.range (pageBuffer * 2 + 1)).map
    (fun i : ℕ => curIndex - ((i : ℤ) - (pageBuffer : ℤ)))

/-- Per-page `translation` derived value (source lines 598-601):
`(index - pageAnim.value) * pageSize.value`. -/
def translationOf (index : ℤ) (pageAnimV pageSizeV : ℚ) : ℚ :=
  ((index : ℚ) - pageAnimV) * pageSizeV

/-- Per-page `focusAnim` derived value (source lines 603-608):
`!pageSize.value` (i.e. `pageSize.value == 0`) yields
`index - initialIndex`, otherwise `translation.value / pageSize.value`. -/
def focusAnimOf (index initialIndex : ℤ) (pageAnimV pageSizeV : ℚ) : ℚ :=
  if pageSizeV = 0 then (index : ℚ) - (initialIndex : ℚ)
  else translationOf index pageAnimV pageSizeV / pageSizeV

/-- The `pageAnim` recomputation (source lines 251-255): the shared value
is reassigned only when `pageSize.value` is truthy (nonzero); otherwise it
keeps its previous value. -/
def pageAnimUpdate (initialIndex : ℤ) (pageSizeV translateV : ℚ)
    (old : ℚ) : ℚ :=
  if pageSizeV ≠ 0 then (initialIndex : ℚ) + translateV / pageSizeV * (-1)
  else old

/-- Clamp `x` into `[lo, hi]` the way `onEnd` does (raise to `lo`, then
cap at `hi`). -/
def clampPage (lo hi x : ℚ) : ℚ := min hi (max lo x)

/-! ## Helper lemmas -/

lemma intSeq_of_lt (a b : ℤ) (h : b < a) : intSeq a b = [] := by
  unfold intSeq
  have h0 : (b + 1 - a).toNat = 0 := by omega
  rw [h0]
  rfl

lemma intSeq_cons (a b : ℤ) (h : a ≤ b) : intSeq a b = a :: intSeq (a + 1) b := by
  unfold intSeq
  have h1 : (b + 1 - a).toNat = (b + 1 - (a + 1)).toNat + 1 := by omega
  rw [h1, List.range_succ_eq_map, List.map_cons, List.map_map]
  congr 1
  · simp
  · refine List.map_congr_left ?_
    intro i _
    simp only [Function.comp_apply]
    push_cast
    ring

lemma chain_getLastD_ge (r : ℤ) (l : List ℤ)
    (h : List.Chain (fun a b => a ≤ b ∧ b ≤ a + 1) r l) : r ≤ l.getLastD r := by
  induction l generalizing r with
  | nil => exact le_refl r
  | cons a l ih =>
    rw [List.chain_cons] at h
    rw [List.getLastD_cons]
    exact le_trans h.1.1 (ih a h.2)

/-- Running the commit reaction over samples whose rounded values climb from
the already-observed value `r` in steps of at most one emits exactly the
integers from `r + 1` up to the final rounded value, in order. -/
lemma runReaction_chain (r : ℤ) (l : List ℚ)
    (h : List.Chain (fun a b : ℤ => a ≤ b ∧ b ≤ a + 1) r (l.map jsRound)) :
    runReaction (some r) l = intSeq (r + 1) ((l.map jsRound).getLastD r) := by
  induction l generalizing r with
  | nil =>
    rw [show runReaction (some r) [] = [] from rfl]
    rw [List.map_nil, List.getLastD_nil, intSeq_of_lt _ _ (by omega)]
  | cons p rest ih =>
    rw [List.map_cons, List.chain_cons] at h
    obtain ⟨⟨h1, h2⟩, hrest⟩ := h
    rw [List.map_cons, List.getLastD_cons]
    by_cases hc : jsRound p = r
    · have hstep : runReaction (some r) (p :: rest) = runReaction (some r) rest := by
        simp only [runReaction]
        rw [if_pos (by rw [hc])]
      rw [hstep, ih r (hc ▸ hrest), hc]
    · have hc1 : jsRound p = r + 1 := by omega
      have hstep : runReaction (some r) (p :: rest) =
          jsRound p :: runReaction (some (jsRound p)) rest := by
        simp only [runReaction]
        rw [if_neg (by simp [Ne.symm hc])]
      rw [hstep, ih (jsRound p) hrest, hc1]
      have hge : r + 1 ≤ (rest.map jsRound).getLastD (r + 1) :=
        chain_getLastD_ge (r + 1) _ (hc1 ▸ hrest)
      rw [intSeq_cons _ _ hge]

lemma intSeq_pairwise (a b : ℤ) : (intSeq a b).Pairwise (· < ·) := by
  unfold intSeq
  refine List.Pairwise.map _ ?_ (List.pairwise_lt_range _)
  intro i j hij
  dsimp only
  omega

lemma intSeq_mem (a b k : ℤ) : k ∈ intSeq a b ↔ a ≤ k ∧ k ≤ b := by
  unfold intSeq
  simp only [List.mem_map, List.mem_range]
  constructor
  · rintro ⟨i, hi, rfl⟩; omega
  · rintro ⟨h1, h2⟩; exact ⟨(k - a).toNat, by omega, by omega⟩

lemma intSeq_concat (a b : ℤ) (h : a ≤ b) :
    intSeq a b = intSeq a (b - 1) ++ [b] := by
  unfold intSeq
  have h1 : (b + 1 - a).toNat = (b - 1 + 1 - a).toNat + 1 := by omega
  rw [h1, List.range_succ, List.map_append, List.map_singleton]
  congr 2
  omega

lemma chain_getLastD_le (r : ℤ) (l : List ℤ)
    (h : List.Chain (fun a b => b ≤ a ∧ a ≤ b + 1) r l) : l.getLastD r ≤ r := by
  induction l generalizing r with
  | nil => exact le_refl r
  | cons a l ih =>
    rw [List.chain_cons] at h
    rw [List.getLastD_cons]
    exact le_trans (ih a h.2) h.1.1

/-- Running the commit reaction over samples whose rounded values descend
from the already-observed value `r` in steps of at most one emits exactly
the integers from `r - 1` down to the final rounded value, in order. -/
lemma runReaction_chain_down (r : ℤ) (l : List ℚ)
    (h : List.Chain (fun a b : ℤ => b ≤ a ∧ a ≤ b + 1) r (l.map jsRound)) :
    runReaction (some r) l
      = (intSeq ((l.map jsRound).getLastD r) (r - 1)).reverse := by
  induction l generalizing r with
  | nil =>
    rw [show runReaction (some r) [] = [] from rfl]
    rw [List.map_nil, List.getLastD_nil, intSeq_of_lt _ _ (by omega),
      List.reverse_nil]
  | cons p rest ih =>
    rw [List.map_cons, List.chain_cons] at h
    obtain ⟨⟨h1, h2⟩, hrest⟩ := h
    rw [List.map_cons, List.getLastD_cons]
    by_cases hc : jsRound p = r
    · have hstep : runReaction (some r) (p :: rest) = runReaction (some r) rest := by
        simp only [runReaction]
        rw [if_pos (by rw [hc])]
      rw [hstep, ih r (hc ▸ hrest), hc]
    · have hc1 : jsRound p = r - 1 := by omega
      have hstep : runReaction (some r) (p :: rest) =
          jsRound p :: runReaction (some (jsRound p)) rest := by
        simp only [runReaction]
        rw [if_neg (by simp [Ne.symm hc])]
      rw [hstep, ih (jsRound p) hrest, hc1]
      have hle : (rest.map jsRound).getLastD (r - 1) ≤ r - 1 :=
        chain_getLastD_le (r - 1) _ (hc1 ▸ hrest)
      rw [intSeq_concat _ _ hle, List.reverse_append]
      rfl

/-- Evaluation of `onUpdate` when the update is not suppressed (not
arbitration-locked and not a cross-axis swipe): the translate written is the
raw translate when the candidate page is in range, and otherwise the
rubber-band formula `rawVal - overflow*pageSize + overflow*(bounce*pageSize)`
with `overflow` measured from the nearer bound. -/
lemma onUpdate_unsuppressed (vertical : Bool) (o : String) (d : ℤ)
    (active : List PagerId) (b ps start : ℚ) (init : ℤ) (mn mx tX tY : ℚ)
    (hlock : isGestureLocked o d active = false)
    (hcross : ¬ (|if vertical then tX else tY| > 10 ∧
      |if vertical then tX else tY| > |if vertical then tY else tX|)) :
    onUpdate vertical o d active b ps start init mn mx tX tY =
      (let rawVal := start + (if vertical then tY else tX)
       let page := (init : ℚ) + -rawVal / ps
       if page ≥ mn ∧ page ≤ mx then some rawVal
       else
         let ref := if page < mn then mn else mx
         let overflow := ref - page
         some (rawVal - overflow * ps + overflow * (b * ps))) := by
  unfold onUpdate
  have hc : (decide (|if vertical then tX else tY| > 10) &&
      decide (|if vertical then tX else tY| > |if vertical then tY else tX|))
        = false := by
    rcases not_and_or.mp hcross with h | h <;> simp [h]
  simp only [hlock, hc, Bool.false_or, Bool.false_eq_true, if_false]

/-- The two-step clamp used by `onEnd` (raise to the lower bound, then cap
at the upper bound) is the standard clamp into `[mn, mx]`. -/
lemma twoStepClamp (mn mx x : ℚ) :
    (if (if x < mn then mn else x) > mx then mx else (if x < mn then mn else x))
      = clampPage mn mx x := by
  unfold clampPage
  split_ifs <;> simp [min_def, max_def] <;> split_ifs <;> linarith

/-! ## Claim theorems -/

/-- C1 (code bug evidence): the spec says a pager whose committed index is
strictly inside `(minIndex, maxIndex)` is registered in `activePagers` at
gesture begin.  In the source, `isAtEdge = isMinIndex || isMaxIndex` ORs the
two derived-value OBJECTS, which are always truthy, so
`!isAtEdgeAnim.value` is always `false` and `onBegin` never registers the
pager — for any committed index, bounds, bounce setting, pager and prior
registry state (in particular for the strictly-inside failing input
`curIndex = 1`, `minIndex = 0`, `maxIndex = 2`, empty registry, where the
result registry is still empty). -/
theorem onBegin_never_registers (pid : PagerId) (tv ex ey : ℚ)
    (st : BeginState) :
    jsTruthy isAtEdgeAnimValue = true ∧
    (onBegin pid tv ex ey st).activePagers = st.activePagers ∧
    (onBegin ⟨"horizontal", 0, 0⟩ 0 0 0 ⟨[], 0, 0, 0⟩).activePagers = [] := by
  refine ⟨rfl, ?_, rfl⟩
  simp [onBegin, isAtEdgeAnimValue, isAtEdge, jsOr, jsTruthy]

/-- C2 (code bug evidence): at the failing input — empty `debugTag`,
`bouncePct = 0`, committed index at the min edge (`curIndex = 0`,
`minIndex = 0`, `maxIndex = 2`), a first touch-move of `+5` on the primary
axis (moving further past the edge), the pager itself the only member of
`activePagers` — the recognizer is told to fail but the pager's id is NOT
removed from `activePagers` (the removal sits inside the `if (debugTag)`
debug-logging block); with a non-empty `debugTag` the removal does
happen. -/
theorem touchesMove_fail_keeps_active_when_no_debugTag :
    (onTouchesMove false 0 "" false "horizontal" 0 0 0 2 ⟨"horizontal", 0, 0⟩
        [⟨"horizontal", 0, 0⟩] 5 0 0 0).failed = true ∧
    (⟨"horizontal", 0, 0⟩ : PagerId) ∈
      (onTouchesMove false 0 "" false "horizontal" 0 0 0 2 ⟨"horizontal", 0, 0⟩
        [⟨"horizontal", 0, 0⟩] 5 0 0 0).activePagers ∧
    (⟨"horizontal", 0, 0⟩ : PagerId) ∉
      (onTouchesMove false 0 "dbg" false "horizontal" 0 0 0 2 ⟨"horizontal", 0, 0⟩
        [⟨"horizontal", 0, 0⟩] 5 0 0 0).activePagers := by
  refine ⟨?_, ?_, ?_⟩
  · norm_num [onTouchesMove, isMinIndexVal, isMaxIndexVal, isGestureLocked,
      List.filter]
  · norm_num [onTouchesMove, isMinIndexVal, isMaxIndexVal, isGestureLocked,
      List.filter]
  · norm_num [onTouchesMove, isMinIndexVal, isMaxIndexVal, isGestureLocked,
      List.filter]
    decide

/-- C3: a pager of orientation `O` and nesting depth `D` is
arbitration-locked iff `activePagers` is non-empty and some active pager of
orientation `O` has depth strictly greater than `D`; in particular a
horizontal depth-0 pager and a vertical depth-1 pager both active lock
neither, while two active horizontal pagers of depths 0 and 1 lock only the
depth-0 one. -/
theorem gesture_lock_characterization (O : String) (D : ℤ)
    (active : List PagerId) :
    (isGestureLocked O D active = true ↔
      active ≠ [] ∧ ∃ p ∈ active, p.orientation = O ∧ D < p.depth) ∧
    (isGestureLocked "horizontal" 0
      [⟨"horizontal", 0, 1⟩, ⟨"vertical", 1, 2⟩] = false) ∧
    (isGestureLocked "vertical" 1
      [⟨"horizontal", 0, 1⟩, ⟨"vertical", 1, 2⟩] = false) ∧
    (isGestureLocked "horizontal" 0
      [⟨"horizontal", 0, 1⟩, ⟨"horizontal", 1, 3⟩] = true) ∧
    (isGestureLocked "horizontal" 1
      [⟨"horizontal", 0, 1⟩, ⟨"horizontal", 1, 3⟩] = false) := by
  refine ⟨?_, by decide, by decide, by decide, by decide⟩
  unfold isGestureLocked
  simp only [Bool.and_eq_true, decide_eq_true_eq, Bool.not_eq_true']
  constructor
  · rintro ⟨h1, h2⟩
    rw [List.all_eq_false] at h2
    obtain ⟨p, hp, hd⟩ := h2
    rw [List.mem_filter, beq_iff_eq] at hp
    simp only [decide_eq_true_eq] at hd
    exact ⟨by simpa [← List.length_eq_zero] using h1, p, hp.1, hp.2, by omega⟩
  · rintro ⟨h1, p, hp, ho, hd⟩
    refine ⟨by simpa [← List.length_eq_zero] using h1, ?_⟩
    rw [List.all_eq_false]
    refine ⟨p, by rw [List.mem_filter, beq_iff_eq]; exact ⟨hp, ho⟩, by simp; omega⟩

/-- C4: for a release that is neither arbitration-locked nor cross-axis, a
fling is declared exactly when the absolute primary-axis velocity exceeds
`flingVelocity`, and the settle target page is
`initialIndex - round((translate + nudge) / pageSize)` clamped into
`[minIndex, maxIndex]`, where `nudge` is a half page signed by the velocity
direction when flinging and `0` otherwise; in particular with threshold
`500`, velocity `-600`, translation `-50` and `pageSize = 300` the target is
one page beyond the nearest-rounded position. -/
theorem onEnd_fling_and_target (vertical : Bool) (o : String) (d : ℤ)
    (active : List PagerId) (fv ps tr : ℚ) (init : ℤ) (mn mx vX vY tX tY : ℚ)
    (hlock : isGestureLocked o d active = false)
    (hcross : ¬ (|if vertical then tX else tY| > |if vertical then tY else tX|)) :
    ((onEnd vertical o d active fv ps tr init mn mx vX vY tX tY).isFling
        = decide (|if vertical then vY else vX| > fv)) ∧
    ((onEnd vertical o d active fv ps tr init mn mx vX vY tX tY).targetPage
        = clampPage mn mx ((init : ℚ) -
            (jsRound ((tr +
              (if |if vertical then vY else vX| > fv then
                (if (if vertical then vY else vX) < 0 then -(ps / 2) else ps / 2)
               else 0)) / ps) : ℚ))) ∧
    ((onEnd false "horizontal" 0 [] 500 300 (-50) 0 (-100) 100
        (-600) 0 (-50) 0).targetPage
      = ((0 : ℚ) - (jsRound ((-50 : ℚ) / 300) : ℚ)) + 1) := by
  have hc : decide (|if vertical then tX else tY| > |if vertical then tY else tX|)
      = false := by simp [hcross]
  refine ⟨?_, ?_, ?_⟩
  · unfold onEnd
    simp only [hlock, hc, Bool.false_or, Bool.false_eq_true, if_false]
  · unfold onEnd
    simp only [hlock, hc, Bool.false_or, Bool.false_eq_true, if_false]
    rw [twoStepClamp]
    congr 1
    by_cases hf : |if vertical then vY else vX| > fv <;>
      by_cases hv : (if vertical then vY else vX) < 0 <;>
      simp [hf, hv] <;> ring_nf
  · unfold onEnd
    norm_num [isGestureLocked, jsRound, clampPage]

/-- C4 witness: the theorem applied at the concrete release of the claim
(horizontal pager, no active registry, threshold 500, velocity -600,
translate -50, page size 300). -/
theorem onEnd_fling_and_target_witness :
    ((onEnd false "horizontal" 0 [] 500 300 (-50) 0 (-100) 100
        (-600) 0 (-50) 0).isFling = decide (|(-600 : ℚ)| > 500)) ∧
    ((onEnd false "horizontal" 0 [] 500 300 (-50) 0 (-100) 100
        (-600) 0 (-50) 0).targetPage
      = clampPage (-100) 100 ((0 : ℚ) -
          (jsRound (((-50 : ℚ) +
            (if |(-600 : ℚ)| > 500 then
              (if (-600 : ℚ) < 0 then -((300 : ℚ) / 2) else (300 : ℚ) / 2)
             else 0)) / 300) : ℤ))) := by
  have h := onEnd_fling_and_target false "horizontal" 0 [] 500 300 (-50) 0
    (-100) 100 (-600) 0 (-50) 0 rfl (by norm_num)
  exact ⟨h.1, h.2.1⟩

/-- C5: for a gesture update that actually writes (not locked, not
cross-axis), with positive bounce fraction and page size, an in-range
candidate page writes the raw translate unchanged, and an out-of-range one
writes `rawTranslate - overflow*pageSize + overflow*(bounce*pageSize)` where
`overflow = ref - page` and `ref` is the nearer bound. -/
theorem onUpdate_edge_policy (vertical : Bool) (o : String) (d : ℤ)
    (active : List PagerId) (b ps start : ℚ) (init : ℤ) (mn mx tX tY : ℚ)
    (hlock : isGestureLocked o d active = false)
    (hcross : ¬ (|if vertical then tX else tY| > 10 ∧
      |if vertical then tX else tY| > |if vertical then tY else tX|))
    (hb : 0 < b) (hps : 0 < ps) :
    onUpdate vertical o d active b ps start init mn mx tX tY =
      (let rawVal := start + (if vertical then tY else tX)
       let page := (init : ℚ) + -rawVal / ps
       if page ≥ mn ∧ page ≤ mx then some rawVal
       else
         let ref := if page < mn then mn else mx
         let overflow := ref - page
         some (rawVal - overflow * ps + overflow * (b * ps))) :=
  onUpdate_unsuppressed vertical o d active b ps start init mn mx tX tY
    hlock hcross

/-- C5 witness: a horizontal update with `bounce = 0.3`, `pageSize = 300`,
bounds `[0, 2]`, primary translation `450` (candidate page `-1.5`, so
overflow `1.5` past the min bound) writes `450 - 1.5*300 + 1.5*90 = 135`. -/
theorem onUpdate_edge_policy_witness :
    onUpdate false "horizontal" 0 [] (3/10) 300 0 0 0 2 450 0 = some 135 := by
  rw [onUpdate_edge_policy false "horizontal" 0 [] (3/10) 300 0 0 0 2 450 0
    rfl (by norm_num) (by norm_num) (by norm_num)]
  norm_num

/-- C6 counterexample: with `bouncePct = 0.3` and `pageSize = 300`, an input
overflow of 4 pages past the min bound (candidate page `-4`, boundary
translate `0`) renders translate `360`, which is NOT strictly below one full
page (`300`) beyond the boundary — the rendered overflow is not bounded by a
page as the claim states. -/
theorem bounce_overflow_reaches_full_page :
    onUpdate false "horizontal" 0 [] (3/10) 300 0 0 0 2 1200 0 = some 360 ∧
    ¬ ((360 : ℚ) < 300) := by
  constructor
  · norm_num [onUpdate, isGestureLocked]
  · norm_num

/-- C6 (amended): with `bouncePct = 0.3` and `pageSize = 300` at the
boundary (boundary translate `0`), an input overflow of `w > 0` pages
renders overflow translate exactly `(0.3*300)*w = 90*w` — linear
(proportional) in the input overflow, so it is at most `90` for an overflow
of exactly one page, but it stays strictly below one full page (`300`) only
while `w < 10/3`, rather than for every larger overflow. -/
theorem bounce_linear_in_overflow (w : ℚ) (hw : 0 < w) :
    onUpdate false "horizontal" 0 [] (3/10) 300 0 0 0 2 (300 * w) 0
      = some (((3/10) * 300) * w) ∧
    ((3/10 : ℚ) * 300) * 1 ≤ 90 ∧
    ((((3/10 : ℚ) * 300) * w < 300) ↔ w < 10/3) := by
  refine ⟨?_, by norm_num, by constructor <;> intro h <;> linarith⟩
  rw [onUpdate_unsuppressed false "horizontal" 0 [] (3/10) 300 0 0 0 2 (300*w) 0
    rfl (by norm_num)]
  have hpage : (0:ℚ) + -(0 + 300 * w) / 300 = -w := by ring
  simp only [if_false, Bool.false_eq_true, hpage]
  rw [if_neg (by rintro ⟨h1, h2⟩; simp at h1; linarith)]
  rw [if_pos (by linarith)]
  congr 1
  ring

/-- C6 witness: the amended theorem at input overflow `w = 2`: rendered
overflow translate `180`, already more than `90` but still below `300`. -/
theorem bounce_linear_in_overflow_witness :
    onUpdate false "horizontal" 0 [] (3/10) 300 0 0 0 2 (300 * 2) 0
      = some (((3/10) * 300) * 2) ∧
    ((3/10 : ℚ) * 300) * 1 ≤ 90 ∧
    ((((3/10 : ℚ) * 300) * 2 < 300) ↔ (2 : ℚ) < 10/3) :=
  bounce_linear_in_overflow 2 (by norm_num)

/-- C7: over any monotonic sweep of the continuous page position — the
successive rounded values either non-decreasing or non-increasing, moving
by at most one per observed sample (a smoothly-driven sweep) — starting
from an already-committed position, the page-change reaction emits exactly
the integers strictly between the start value and the final rounded value
(final included), walked in the sweep's direction: each distinct committed
value exactly once, in crossing order, with no skips, no repeats, and no
emission when the rounded position does not change. -/
theorem commit_notify_monotonic (start : ℚ) (samples : List ℚ)
    (hmono :
      List.Chain (fun a b : ℤ => a ≤ b ∧ b ≤ a + 1) (jsRound start)
        (samples.map jsRound) ∨
      List.Chain (fun a b : ℤ => b ≤ a ∧ a ≤ b + 1) (jsRound start)
        (samples.map jsRound)) :
    sweepEmissions start samples =
      walkFrom (jsRound start) ((samples.map jsRound).getLastD (jsRound start)) ∧
    (sweepEmissions start samples).Pairwise (· ≠ ·) ∧
    (∀ k : ℤ, k ∈ sweepEmissions start samples ↔
      (jsRound start < k ∧
        k ≤ (samples.map jsRound).getLastD (jsRound start)) ∨
      ((samples.map jsRound).getLastD (jsRound start) ≤ k ∧
        k < jsRound start)) := by
  have hmain : sweepEmissions start samples =
      walkFrom (jsRound start) ((samples.map jsRound).getLastD (jsRound start)) := by
    rcases hmono with h | h
    · have hge : jsRound start ≤ (samples.map jsRound).getLastD (jsRound start) :=
        chain_getLastD_ge (jsRound start) _ h
      rw [walkFrom, if_pos hge]
      exact runReaction_chain (jsRound start) samples h
    · have hle : (samples.map jsRound).getLastD (jsRound start) ≤ jsRound start :=
        chain_getLastD_le (jsRound start) _ h
      have hdown := runReaction_chain_down (jsRound start) samples h
      rw [walkFrom]
      split
      · next hup =>
        have heq : (samples.map jsRound).getLastD (jsRound start) = jsRound start :=
          le_antisymm hle hup
        rw [show sweepEmissions start samples
            = runReaction (some (jsRound start)) samples from rfl, hdown, heq,
          intSeq_of_lt _ _ (by omega), intSeq_of_lt _ _ (by omega),
          List.reverse_nil]
      · next => exact hdown
  refine ⟨hmain, ?_, ?_⟩
  · rw [hmain, walkFrom]
    split
    · exact (intSeq_pairwise _ _).imp (fun h => ne_of_lt h)
    · rw [List.pairwise_reverse]
      exact (intSeq_pairwise _ _).imp (fun h => (ne_of_lt h).symm)
  · intro k
    rw [hmain, walkFrom]
    split
    · next hup =>
      rw [intSeq_mem]
      omega
    · next hdn =>
      rw [List.mem_reverse, intSeq_mem]
      omega

/-- C7 witness: a smooth sweep from page 0 up to page 5 fires the callback
for `1, 2, 3, 4, 5` in that order, each exactly once; a smooth sweep from
page 5 down to page 0 fires `4, 3, 2, 1, 0` in that order, each exactly
once. -/
theorem commit_notify_monotonic_witness :
    sweepEmissions 0 [1/5, 7/10, 8/5, 5/2, 7/2, 9/2, 5] = [1, 2, 3, 4, 5] ∧
    sweepEmissions 5 [22/5, 17/5, 12/5, 7/5, 2/5, 0] = [4, 3, 2, 1, 0] := by
  constructor
  · have h := commit_notify_monotonic 0 [1/5, 7/10, 8/5, 5/2, 7/2, 9/2, 5]
      (Or.inl (by norm_num [jsRound, List.chain_cons]))
    rw [h.1]
    norm_num [jsRound, walkFrom]
    decide
  · have h := commit_notify_monotonic 5 [22/5, 17/5, 12/5, 7/5, 2/5, 0]
      (Or.inr (by norm_num [jsRound, List.chain_cons]))
    rw [h.1]
    norm_num [jsRound, walkFrom]
    decide

/-- C8: `setPage` with an index outside `[minIndex, maxIndex]` returns
without modifying the translate value or the committed index — a silent
no-op. -/
theorem setPage_out_of_range_noop (mn mx : ℚ) (init : ℤ) (ps lps idx : ℚ)
    (st : SetPageState) (h : idx < mn ∨ idx > mx) :
    setPage mn mx init ps lps idx st = st ∧
    (setPage mn mx init ps lps idx st).translateV = st.translateV ∧
    (setPage mn mx init ps lps idx st).curIndex = st.curIndex := by
  have hs : setPage mn mx init ps lps idx st = st := by
    unfold setPage
    simp [h]
  exact ⟨hs, by rw [hs], by rw [hs]⟩

/-- C8 witness: `setPage 10` with `maxIndex = 3` leaves translate `123` and
committed index `1` unchanged. -/
theorem setPage_out_of_range_noop_witness :
    setPage 0 3 0 300 300 10 ⟨123, 1⟩ = (⟨123, 1⟩ : SetPageState) ∧
    (setPage 0 3 0 300 300 10 ⟨123, 1⟩).translateV = (123 : ℚ) ∧
    (setPage 0 3 0 300 300 10 ⟨123, 1⟩).curIndex = (1 : ℤ) :=
  setPage_out_of_range_noop 0 3 0 300 300 10 ⟨123, 1⟩ (by norm_num)

/-- C9: for committed index `c` and buffer radius `r`, the mounted index
set is exactly `{c-r, ..., c+r}`: cardinality `2r+1`, no duplicates, and
recomputing with unchanged inputs yields the identical list. -/
theorem pageIndices_window (c : ℤ) (r : ℕ) :
    (pageIndices c r).toFinset = Finset.Icc (c - r) (c + r) ∧
    (pageIndices c r).length = 2 * r + 1 ∧
    (pageIndices c r).Nodup ∧
    pageIndices c r = pageIndices c r := by
  refine ⟨?_, ?_, ?_, rfl⟩
  · ext k
    unfold pageIndices
    simp only [List.mem_toFinset, List.mem_map, List.mem_range, Finset.mem_Icc]
    constructor
    · rintro ⟨i, hi, rfl⟩
      omega
    · rintro ⟨h1, h2⟩
      exact ⟨(c + r - k).toNat, by omega, by omega⟩
  · unfold pageIndices
    rw [List.length_map, List.length_range]
    omega
  · unfold pageIndices
    refine List.Nodup.map ?_ (List.nodup_range _)
    intro a b h
    dsimp only at h
    omega

/-- C10: the per-page focus computation is total with no division by a zero
page size — it equals `index - initialIndex` when `pageSize = 0` and
`index - pageAnim` otherwise — and the `pageAnim` recomputation fires only
when `pageSize` is nonzero, so across any sequence of updates all observed
with `pageSize = 0` it retains its initial value `initialIndex`. -/
theorem focusAnim_total_and_pageAnim_retention (index init : ℤ)
    (pa ps t old : ℚ) (updates : List (ℚ × ℚ))
    (hup : ∀ u ∈ updates, u.1 = 0) :
    (focusAnimOf index init pa ps
      = if ps = 0 then ((index : ℚ) - (init : ℚ)) else ((index : ℚ) - pa)) ∧
    pageAnimUpdate init 0 t old = old ∧
    updates.foldl (fun acc u => pageAnimUpdate init u.1 u.2 acc) ((init : ℤ) : ℚ)
      = ((init : ℤ) : ℚ) := by
  refine ⟨?_, ?_, ?_⟩
  · unfold focusAnimOf translationOf
    split
    · rfl
    · next h => rw [mul_div_cancel_right₀ _ h]
  · simp [pageAnimUpdate]
  · induction updates with
    | nil => rfl
    | cons u l ih =>
      simp only [List.foldl_cons]
      rw [show pageAnimUpdate init u.1 u.2 ((init : ℤ) : ℚ) = ((init : ℤ) : ℚ) by
        simp [pageAnimUpdate, hup u (by simp)]]
      exact ih (fun v hv => hup v (by simp [hv]))

/-- C10 witness: before first layout (`pageSize = 0`) the focus of page 2
with initial index 0 is `2 - 0` regardless of `pageAnim`, a zero-size update
leaves `pageAnim` unchanged, and two zero-size updates keep it at the
initial index. -/
theorem focusAnim_total_witness :
    (focusAnimOf 2 0 (3/2) 0
      = if (0 : ℚ) = 0 then (((2 : ℤ) : ℚ) - ((0 : ℤ) : ℚ))
        else (((2 : ℤ) : ℚ) - 3/2)) ∧
    pageAnimUpdate 0 0 5 7 = 7 ∧
    ([((0 : ℚ), (5 : ℚ)), (0, 9)]).foldl
        (fun acc u => pageAnimUpdate 0 u.1 u.2 acc) (((0 : ℤ) : ℚ))
      = (((0 : ℤ) : ℚ)) :=
  focusAnim_total_and_pageAnim_retention 2 0 (3/2) 0 5 7 [(0, 5), (0, 9)] (by
    intro u hu
    simp only [List.mem_cons, List.not_mem_nil, or_false] at hu
    rcases hu with h | h <;> rw [h])

end InfinitePager
